import Mathlib

/-!
Verification of the `tower_fs` filesystem service: a shallow embedding of
the range-aware streaming body adapter (`src/http.rs`), the path
confinement middleware (`src/middleware/root.rs`) and the operation
dispatcher (`src/lib.rs`), together with theorems settling the spec's
claims about them.

Conventions:
- byte strings are `List Nat` (each entry a byte value);
- paths are `RPath`: an absolute flag plus the raw component strings, the
  same data a Rust `PathBuf` holds on Unix;
- OS primitives (canonicalize, try_exists, OpenOptions::open) are external
  collaborators; they are modelled over a symlink-free filesystem snapshot
  `FS`, or kept abstract (`canon : RPath → Option RPath`) where a theorem
  holds for every canonicalization behaviour.
-/

namespace TowerFs

/-! ## Streaming body adapter (`src/http.rs`, `AsyncReadBody`)

`ReaderStream::with_capacity(reader, capacity)` repeatedly reads at most
`capacity` bytes from the reader and yields each non-empty read as one
chunk, ending the stream at EOF.  A reader wrapped in `take(n)` yields at
most `n` bytes.  We model the reader as the list of bytes it will produce.
-/

/-- One step of `ReaderStream`: fuelled structural recursion so the kernel
can evaluate it (`fuel` is instantiated with the source length, which
bounds the number of non-empty reads). A zero `capacity` makes the first
read return 0 bytes, which `ReaderStream` treats as EOF. -/
def chunksOfGo (capacity : Nat) : Nat → List Nat → List (List Nat)
  | 0, _ => []
  | _ + 1, [] => []
  | fuel + 1, b :: bs =>
    if capacity = 0 then []
    else (b :: bs).take capacity :: chunksOfGo capacity fuel ((b :: bs).drop capacity)

/-- The chunk sequence `ReaderStream::with_capacity(reader, capacity)`
yields when the reader produces exactly the bytes `bs`. -/
def chunksOf (capacity : Nat) (bs : List Nat) : List (List Nat) :=
  chunksOfGo capacity bs.length bs

/-- `AsyncReadBody::with_range(read, capacity, a..=b)` (success path of the
seek): seeks to `a` (drop the first `a` source bytes), computes
`max_read_bytes = range.end() - range.start()` — note: the code does not
add 1 — and wraps the reader in `take(max_read_bytes)` before chunking. -/
def with_range_chunks (source : List Nat) (capacity a b : Nat) :
    List (List Nat) :=
  chunksOf capacity ((source.drop a).take (b - a))

/-- Total number of bytes across a chunk sequence. -/
def sumLens (cs : List (List Nat)) : Nat :=
  (cs.map List.length).sum

theorem chunksOfGo_sumLens (capacity : Nat) (hc : 0 < capacity) :
    ∀ fuel bs, bs.length ≤ fuel →
      sumLens (chunksOfGo capacity fuel bs) = bs.length := by
  intro fuel
  induction fuel with
  | zero =>
    intro bs hbs
    match bs, hbs with
    | [], _ => rfl
  | succ n ih =>
    intro bs hbs
    match bs with
    | [] => rfl
    | x :: xs =>
      rw [chunksOfGo, if_neg (Nat.pos_iff_ne_zero.mp hc)]
      have hdrop : ((x :: xs).drop capacity).length ≤ n := by
        rw [List.length_drop]
        omega
      rw [sumLens, List.map_cons, List.sum_cons, ← sumLens,
        ih _ hdrop, List.length_take, List.length_drop]
      simp only [List.length_cons]
      omega

/-- For positive capacity, `ReaderStream` delivers every source byte:
the chunk totals equal the reader's length. -/
theorem chunksOf_sumLens (capacity : Nat) (bs : List Nat)
    (hc : 0 < capacity) : sumLens (chunksOf capacity bs) = bs.length :=
  chunksOfGo_sumLens capacity hc bs.length bs (Nat.le_refl _)

/-- General behaviour of the range adapter: the cumulative byte total is
`min (b - a) (source.length - a)` — for a source long enough to cover the
range, `b - a`, not the `b - a + 1` an inclusive range `a..=b` denotes. -/
theorem with_range_chunks_total (source : List Nat) (capacity a b : Nat)
    (hc : 0 < capacity) :
    sumLens (with_range_chunks source capacity a b)
      = min (b - a) (source.length - a) := by
  rw [with_range_chunks, chunksOf_sumLens capacity _ hc, List.length_take,
    List.length_drop]

/-! ## Paths (`std::path` on Unix)

A `PathBuf` on Unix is an absolute flag (a leading `/`) followed by the raw
component strings.  `Path::components()` normalizes that raw view: empty
components disappear, `.` components disappear except at the start of a
relative path, `..` becomes `ParentDir`.  `starts_with` and `strip_prefix`
compare the normalized component views.
-/

/-- A Unix path: absolute flag plus raw component strings (which may still
contain `.` / `..` / empty entries). -/
structure RPath where
  absolute : Bool
  components : List String
  deriving DecidableEq, Repr

/-- A normalized path component as produced by `Path::components()` (Unix:
no `Prefix` components). -/
inductive PComp where
  | rootDir
  | curDir
  | parentDir
  | normal (s : String)
  deriving DecidableEq, Repr

/-- Normalize a tail component string the way `components()` does past the
first component: `..` is `ParentDir`, anything else (empties and `.`
already filtered) is `Normal`. -/
def classifyStr (s : String) : PComp :=
  if s = "." then .curDir else if s = ".." then .parentDir else .normal s

/-- `Path::components()`: the normalized component view of a path. A
leading `.` survives only at the head of a relative path; empty components
and interior `.` components are dropped. -/
def RPath.compList (p : RPath) : List PComp :=
  let parts := p.components.filter (fun c => c ≠ "")
  if p.absolute then
    .rootDir :: (parts.filter (fun c => c ≠ ".")).map classifyStr
  else
    match parts with
    | [] => []
    | c :: cs => classifyStr c :: (cs.filter (fun c => c ≠ ".")).map classifyStr

/-- `subpath.strip_prefix("/").unwrap_or(subpath)`: an absolute path loses
its root marker (the remaining components are unchanged and are normalized
later by canonicalization), a relative path is returned as-is. -/
def stripRoot (p : RPath) : RPath :=
  if p.absolute then { absolute := false, components := p.components } else p

/-- `Path::join`: joining an absolute path replaces the base, otherwise the
components are appended. -/
def RPath.join (base sub : RPath) : RPath :=
  if sub.absolute then sub
  else { absolute := base.absolute, components := base.components ++ sub.components }

/-- `Path::starts_with`: component-wise prefix test on the normalized
views. -/
def RPath.startsWith (p base : RPath) : Bool :=
  base.compList.isPrefixOf p.compList

/-! ## Confinement resolver (`src/middleware/root.rs`, `make_relative`)

`std::fs::canonicalize` is an OS primitive; `make_relative` is stated over
an arbitrary canonicalization function `canon`, so that its confinement
property holds whatever the OS (symlinks included) does. -/

/-- `make_relative(root, subpath)`: join the root with the subpath stripped
of any leading root marker, canonicalize, and keep the result only when it
starts with the root. -/
def make_relative (canon : RPath → Option RPath) (root subpath : RPath) :
    Option RPath :=
  (canon (root.join (stripRoot subpath))).filter
    (fun path => path.startsWith root)

/-! ## A symlink-free filesystem model for `std::fs::canonicalize`

`canonicalize` resolves an existing path to its absolute, symlink-free
normalized form and fails (`Err`, e.g. `NotFound`) when the path does not
exist.  The model: a filesystem snapshot is the set of existing entries,
each named by its canonical absolute component list; with no symlinks,
resolution is lexical `.`/`..` collapsing plus an existence check. -/

/-- A snapshot of a symlink-free filesystem: the canonical component lists
of all existing entries (`[]` is the filesystem root `/`). -/
abbrev FS : Type := List (List String)

/-- Lexical resolution of `.` and `..` over raw components (accumulator =
resolved components so far; `..` at the top stays at `/`, as on POSIX). -/
def normalizeGo (acc : List String) : List String → List String
  | [] => acc
  | c :: cs =>
    if c = "" ∨ c = "." then normalizeGo acc cs
    else if c = ".." then normalizeGo acc.dropLast cs
    else normalizeGo (acc ++ [c]) cs

/-- Canonical form of a raw absolute component list in a symlink-free
filesystem. -/
def normalizeComps (l : List String) : List String :=
  normalizeGo [] l

/-- `std::fs::canonicalize` over a symlink-free snapshot: defined on
absolute paths (every path it receives in this development is absolute);
fails when the resolved path does not exist. -/
def canonicalizeFS (fs : FS) (p : RPath) : Option RPath :=
  if p.absolute then
    let n := normalizeComps p.components
    if n ∈ fs then some { absolute := true, components := n } else none
  else none

/-! ## Operation descriptors and dispatcher (`src/lib.rs`)

The dispatcher maps each `Request` variant onto one `tokio::fs` primitive.
Those primitives are external collaborators, gathered in an `OS` record;
`osOf` below instantiates them over the symlink-free snapshot model.
Target platform is Unix, so the `cfg(windows)` `SymlinkDir` variant is
omitted (`SymlinkFile` carries no `cfg` in the enum and is kept). -/

/-- The `std::io::ErrorKind` values the model distinguishes. -/
inductive IOErr where
  | notFound
  | alreadyExists
  | invalidInput
  deriving DecidableEq, Repr

/-- `std::fs::Permissions` (contents irrelevant here). -/
structure Permissions where
  bits : Nat
  deriving DecidableEq, Repr

/-- `std::fs::Metadata`, abstracted as a record tagged with the path it
describes. -/
structure Metadata where
  ofPath : RPath
  deriving DecidableEq, Repr

/-- An open `tokio::fs::File` handle, abstracted as the path it was opened
at. -/
structure FileHandle where
  path : RPath
  deriving DecidableEq, Repr

/-- `Mode` from `src/lib.rs`. -/
inductive Mode where
  | Read
  | AppendExisting
  | CreateOrOverwrite
  | CreateOrAppend
  | CreateNew
  deriving DecidableEq, Repr

/-- The flags of `tokio::fs::OpenOptions`. -/
structure OpenOptions where
  read : Bool
  append : Bool
  write : Bool
  truncate : Bool
  create : Bool
  createNew : Bool
  deriving DecidableEq, Repr

/-- `OpenOptions::new()`: all flags off. -/
def OpenOptions.new : OpenOptions :=
  { read := false, append := false, write := false, truncate := false,
    create := false, createNew := false }

/-- `Mode::into_open_options` from `src/lib.rs`: each mode sets exactly the
flags the source sets. -/
def Mode.into_open_options : Mode → OpenOptions
  | .Read => { OpenOptions.new with read := true }
  | .AppendExisting => { OpenOptions.new with append := true }
  | .CreateOrOverwrite => { OpenOptions.new with write := true, truncate := true }
  | .CreateOrAppend => { OpenOptions.new with append := true, create := true }
  | .CreateNew => { OpenOptions.new with write := true, createNew := true }

/-- `Request` from `src/lib.rs` (Unix variants). -/
inductive Request where
  | Copy (from_ to_ : RPath)
  | CreateDir (path : RPath) (recursive : Bool)
  | FollowLink (path : RPath)
  | GetMetadata (path : RPath) (follow_symlinks : Bool)
  | HardLink (src dst : RPath)
  | Open (mode : Mode) (path : RPath)
  | RemoveDir (path : RPath) (recursive : Bool)
  | RemoveFile (path : RPath)
  | Rename (from_ to_ : RPath)
  | SetPermissions (path : RPath) (perm : Permissions)
  | SymLink (src dst : RPath)
  | SymlinkFile (src dst : RPath)
  | Exists (path : RPath)
  deriving DecidableEq, Repr

/-- `Response` from `src/lib.rs`. -/
inductive Response where
  | Done
  | Copied (n : Nat)
  | File (f : FileHandle)
  | Directory (entries : List (RPath × Metadata))
  | Metadata (m : TowerFs.Metadata)
  | Exists (b : Bool)
  | PointsTo (p : RPath)
  deriving DecidableEq, Repr

/-- `Response::done`, the unit-to-`Done` adapter from `src/lib.rs`. -/
def Response.done (_ : Unit) : Response := .Done

/-- The `tokio::fs` primitives `FileSystem::call` dispatches to, as an
abstract record of external collaborators. -/
structure OS where
  copy : RPath → RPath → Except IOErr Nat
  create_dir_all : RPath → Except IOErr Unit
  create_dir : RPath → Except IOErr Unit
  try_exists : RPath → Except IOErr Bool
  read_link : RPath → Except IOErr RPath
  metadata : RPath → Except IOErr Metadata
  symlink_metadata : RPath → Except IOErr Metadata
  hard_link : RPath → RPath → Except IOErr Unit
  openFile : OpenOptions → RPath → Except IOErr FileHandle
  remove_dir_all : RPath → Except IOErr Unit
  remove_dir : RPath → Except IOErr Unit
  remove_file : RPath → Except IOErr Unit
  rename : RPath → RPath → Except IOErr Unit
  set_permissions : RPath → Permissions → Except IOErr Unit
  symlink : RPath → RPath → Except IOErr Unit
  symlink_file : RPath → RPath → Except IOErr Unit

/-- `FileSystem::call` from `src/lib.rs`: mechanical dispatch of each
request variant to the matching primitive, mapping successes into the
`Response` variants the source maps them to. -/
def FileSystem.call (os : OS) : Request → Except IOErr Response
  | .Copy from_ to_ => (os.copy from_ to_).map Response.Copied
  | .CreateDir path true => (os.create_dir_all path).map Response.done
  | .CreateDir path false => (os.create_dir path).map Response.done
  | .Exists path => (os.try_exists path).map Response.Exists
  | .FollowLink path => (os.read_link path).map Response.PointsTo
  | .GetMetadata path true => (os.metadata path).map Response.Metadata
  | .GetMetadata path false => (os.symlink_metadata path).map Response.Metadata
  | .HardLink src dst => (os.hard_link src dst).map Response.done
  | .Open mode path => (os.openFile mode.into_open_options path).map Response.File
  | .RemoveDir path true => (os.remove_dir_all path).map Response.done
  | .RemoveDir path false => (os.remove_dir path).map Response.done
  | .RemoveFile path => (os.remove_file path).map Response.done
  | .Rename from_ to_ => (os.rename from_ to_).map Response.done
  | .SetPermissions path perm => (os.set_permissions path perm).map Response.done
  | .SymLink src dst => (os.symlink src dst).map Response.done
  | .SymlinkFile src dst => (os.symlink_file src dst).map Response.done

/-! ## Root middleware (`src/middleware/root.rs`) -/

/-- `Request::adjust_paths` from `src/middleware/root.rs`: every path field
is rewritten through `make_relative`; the first failure makes the whole
adjustment fail. -/
def Request.adjust_paths (canon : RPath → Option RPath) (root : RPath) :
    Request → Option Request
  | .Copy from_ to_ =>
    (make_relative canon root from_).bind fun from_ =>
      (make_relative canon root to_).bind fun to_ => some (.Copy from_ to_)
  | .CreateDir path recursive =>
    (make_relative canon root path).bind fun path => some (.CreateDir path recursive)
  | .Exists path =>
    (make_relative canon root path).bind fun path => some (.Exists path)
  | .FollowLink path =>
    (make_relative canon root path).bind fun path => some (.FollowLink path)
  | .GetMetadata path follow_symlinks =>
    (make_relative canon root path).bind fun path =>
      some (.GetMetadata path follow_symlinks)
  | .HardLink src dst =>
    (make_relative canon root src).bind fun src =>
      (make_relative canon root dst).bind fun dst => some (.HardLink src dst)
  | .Open mode path =>
    (make_relative canon root path).bind fun path => some (.Open mode path)
  | .RemoveDir path recursive =>
    (make_relative canon root path).bind fun path => some (.RemoveDir path recursive)
  | .RemoveFile path =>
    (make_relative canon root path).bind fun path => some (.RemoveFile path)
  | .Rename from_ to_ =>
    (make_relative canon root from_).bind fun from_ =>
      (make_relative canon root to_).bind fun to_ => some (.Rename from_ to_)
  | .SetPermissions path perm =>
    (make_relative canon root path).bind fun path => some (.SetPermissions path perm)
  | .SymLink src dst =>
    (make_relative canon root src).bind fun src =>
      (make_relative canon root dst).bind fun dst => some (.SymLink src dst)
  | .SymlinkFile src dst =>
    (make_relative canon root src).bind fun src =>
      (make_relative canon root dst).bind fun dst => some (.SymlinkFile src dst)

/-- `Root::call` from `src/middleware/root.rs`, generic over the wrapped
inner service: an adjusted request is forwarded to the inner service, a
failed adjustment becomes `ErrorKind::NotFound` without touching the inner
service. -/
def Root.call (inner : Request → Except IOErr Response)
    (canon : RPath → Option RPath) (root : RPath) (req : Request) :
    Except IOErr Response :=
  match req.adjust_paths canon root with
  | some r => inner r
  | none => .error .notFound

/-- The path fields of a request (the fields `adjust_paths` rewrites). -/
def Request.pathFields : Request → List RPath
  | .Copy from_ to_ => [from_, to_]
  | .CreateDir path _ => [path]
  | .Exists path => [path]
  | .FollowLink path => [path]
  | .GetMetadata path _ => [path]
  | .HardLink src dst => [src, dst]
  | .Open _ path => [path]
  | .RemoveDir path _ => [path]
  | .RemoveFile path => [path]
  | .Rename from_ to_ => [from_, to_]
  | .SetPermissions path _ => [path]
  | .SymLink src dst => [src, dst]
  | .SymlinkFile src dst => [src, dst]

/-! ## The OS primitives over the symlink-free snapshot model -/

/-- `tokio::fs::try_exists` over a snapshot: does the resolved path exist? -/
def FS.pathExists (fs : FS) (p : RPath) : Bool :=
  p.absolute && decide (normalizeComps p.components ∈ fs)

/-- `OpenOptions::open`, modelled from its documented semantics: a
creation flag or `truncate` without write access, or no access mode at
all, is `InvalidInput`; `create_new` on an existing path is
`AlreadyExists`; a missing path without a creation flag is `NotFound`;
otherwise the open succeeds. -/
def OpenOptions.openFile (o : OpenOptions) (fs : FS) (p : RPath) :
    Except IOErr FileHandle :=
  let writable := o.write || o.append
  if (o.create || o.createNew || o.truncate) && !writable then
    .error .invalidInput
  else if !(o.read || writable) then
    .error .invalidInput
  else if fs.pathExists p then
    if o.createNew then .error .alreadyExists else .ok { path := p }
  else if o.create || o.createNew then
    .ok { path := p }
  else
    .error .notFound

/-- The `tokio::fs` primitives instantiated over a snapshot.  Successful
mutations are reported (`Done`-shaped `.ok`) without threading a new
snapshot: no claim observes post-state, and each request is dispatched
against the snapshot it arrived at.  `read_link` always fails because the
snapshot is symlink-free. -/
def osOf (fs : FS) : OS where
  copy := fun from_ _ =>
    if fs.pathExists from_ then .ok 0 else .error .notFound
  create_dir_all := fun _ => .ok ()
  create_dir := fun p =>
    if fs.pathExists p then .error .alreadyExists else .ok ()
  try_exists := fun p => .ok (fs.pathExists p)
  read_link := fun _ => .error .invalidInput
  metadata := fun p =>
    if fs.pathExists p then .ok { ofPath := p } else .error .notFound
  symlink_metadata := fun p =>
    if fs.pathExists p then .ok { ofPath := p } else .error .notFound
  hard_link := fun src _ =>
    if fs.pathExists src then .ok () else .error .notFound
  openFile := fun o p => o.openFile fs p
  remove_dir_all := fun p =>
    if fs.pathExists p then .ok () else .error .notFound
  remove_dir := fun p =>
    if fs.pathExists p then .ok () else .error .notFound
  remove_file := fun p =>
    if fs.pathExists p then .ok () else .error .notFound
  rename := fun from_ _ =>
    if fs.pathExists from_ then .ok () else .error .notFound
  set_permissions := fun p _ =>
    if fs.pathExists p then .ok () else .error .notFound
  symlink := fun _ _ => .ok ()
  symlink_file := fun _ _ => .ok ()

/-! ## Helper lemmas -/

theorem isPrefixOf_self {α : Type} [DecidableEq α] (l : List α) :
    l.isPrefixOf l = true := by
  induction l with
  | nil => rfl
  | cons a as ih => simp [List.isPrefixOf, ih]

/-- Every path starts with itself (`Path::starts_with` is reflexive). -/
theorem startsWith_self (p : RPath) : p.startsWith p = true :=
  isPrefixOf_self _

/-- Characterization of a successful `make_relative`: the result is the
canonicalization of the joined path, and it passed the prefix check. -/
theorem make_relative_eq_some (canon : RPath → Option RPath)
    (root subpath p : RPath) :
    make_relative canon root subpath = some p ↔
      canon (root.join (stripRoot subpath)) = some p ∧
        p.startsWith root = true := by
  rw [make_relative]
  cases hc : canon (root.join (stripRoot subpath)) with
  | none => simp [Option.filter]
  | some q =>
    rw [Option.filter]
    by_cases hq : q.startsWith root
    · simp only [hq, if_pos]
      constructor
      · rintro h
        cases h
        exact ⟨rfl, hq⟩
      · rintro ⟨h, _⟩
        cases h
        rfl
    · simp only [hq, if_neg, Bool.false_eq_true, not_false_eq_true]
      constructor
      · rintro h
        cases h
      · rintro ⟨h, hs⟩
        cases h
        exact absurd hs hq

theorem make_relative_startsWith {canon : RPath → Option RPath}
    {root subpath p : RPath} (h : make_relative canon root subpath = some p) :
    p.startsWith root = true :=
  ((make_relative_eq_some canon root subpath p).mp h).2

/-- C2: For every caller-supplied path — traversal sequences, `.`
components and symlink indirection included, since the canonicalization
function is arbitrary here — `make_relative` returns either `Some path`
with `path` prefixed by the root, or `None`; it never returns a path
outside the root. -/
theorem make_relative_confined (canon : RPath → Option RPath)
    (root subpath p : RPath) (h : make_relative canon root subpath = some p) :
    p.startsWith root = true :=
  make_relative_startsWith h

/-- Witness for C2 at a concrete input: root `/srv`, request `a`, with a
canonicalization that is the identity on the joined path. -/
theorem make_relative_confined_witness :
    make_relative some
        { absolute := true, components := ["srv"] }
        { absolute := false, components := ["a"] }
      = some { absolute := true, components := ["srv", "a"] } ∧
      RPath.startsWith { absolute := true, components := ["srv", "a"] }
        { absolute := true, components := ["srv"] } = true :=
  ⟨by decide,
    make_relative_confined some
      { absolute := true, components := ["srv"] }
      { absolute := false, components := ["a"] }
      { absolute := true, components := ["srv", "a"] } (by decide)⟩

/-- Every path field of a successfully adjusted request has passed
`make_relative`, hence starts with the root. -/
theorem adjust_paths_confines {canon : RPath → Option RPath} {root : RPath}
    {req req' : Request} (h : req.adjust_paths canon root = some req') :
    ∀ p ∈ req'.pathFields, p.startsWith root = true := by
  cases req <;>
    simp only [Request.adjust_paths, Option.bind_eq_some,
      Option.some.injEq] at h <;>
  first
  | (obtain ⟨a, ha, b, hb, rfl⟩ := h
     simp only [Request.pathFields, List.mem_cons, List.not_mem_nil, or_false]
     rintro p (rfl | rfl)
     · exact make_relative_startsWith ha
     · exact make_relative_startsWith hb)
  | (obtain ⟨a, ha, rfl⟩ := h
     simp only [Request.pathFields, List.mem_cons, List.not_mem_nil, or_false]
     rintro p rfl
     exact make_relative_startsWith ha)

/-- C3: `Root::call` either rejects a request whose path adjustment failed
with `NotFound` — without invoking the inner service — or invokes the
inner service with the adjusted request, all of whose path fields have
passed `make_relative` and so are confined under the root.  `inner` is
universally quantified, so the inner service is reached only through this
disjunction. -/
theorem root_call_confinement (inner : Request → Except IOErr Response)
    (canon : RPath → Option RPath) (root : RPath) (req : Request) :
    (req.adjust_paths canon root = none ∧
      Root.call inner canon root req = .error .notFound) ∨
    (∃ req', req.adjust_paths canon root = some req' ∧
      Root.call inner canon root req = inner req' ∧
      ∀ p ∈ req'.pathFields, p.startsWith root = true) := by
  cases h : req.adjust_paths canon root with
  | none => exact Or.inl ⟨rfl, by rw [Root.call, h]⟩
  | some req' =>
    exact Or.inr ⟨req', rfl, by rw [Root.call, h], adjust_paths_confines h⟩

/-- C6: every outcome of `Root::call` is either an invocation of the inner
service or exactly the `NotFound` error — whatever made confinement fail
(escape from the root or canonicalization failure, both of which collapse
to `None` inside `make_relative`), the surfaced error is the single kind
`NotFound`, with no sub-kind distinguishing the cause. -/
theorem root_call_single_error_kind (inner : Request → Except IOErr Response)
    (canon : RPath → Option RPath) (root : RPath) (req : Request) :
    (∃ req', Root.call inner canon root req = inner req') ∨
      Root.call inner canon root req = .error IOErr.notFound := by
  cases h : req.adjust_paths canon root with
  | none => exact Or.inr (by rw [Root.call, h])
  | some req' => exact Or.inl ⟨req', by rw [Root.call, h]⟩

/-- A trailing `.` component does not change lexical resolution. -/
theorem normalizeGo_append_dot (l : List String) :
    ∀ acc, normalizeGo acc (l ++ ["."]) = normalizeGo acc l := by
  induction l with
  | nil =>
    intro acc
    simp [normalizeGo]
  | cons c cs ih =>
    intro acc
    simp only [List.cons_append, normalizeGo]
    by_cases h1 : c = "" ∨ c = "."
    · rw [if_pos h1, if_pos h1]
      exact ih _
    · rw [if_neg h1, if_neg h1]
      by_cases h2 : c = ".."
      · rw [if_pos h2, if_pos h2]
        exact ih _
      · rw [if_neg h2, if_neg h2]
        exact ih _

/-- C8: against any existing, canonical (already normalized, absolute)
root, resolving the empty path and resolving `.` both yield the root
itself. -/
theorem resolve_empty_and_dot (fs : FS) (root : RPath)
    (habs : root.absolute = true)
    (hcanon : normalizeComps root.components = root.components)
    (hex : root.components ∈ fs) :
    make_relative (canonicalizeFS fs) root
        { absolute := false, components := [] } = some root ∧
      make_relative (canonicalizeFS fs) root
        { absolute := false, components := ["."] } = some root := by
  obtain ⟨ab, comps⟩ := root
  simp only at habs hcanon hex
  subst habs
  constructor
  · rw [make_relative_eq_some]
    refine ⟨?_, startsWith_self _⟩
    rw [stripRoot, if_neg (by simp), RPath.join, if_neg (by simp),
      canonicalizeFS]
    simp only [List.append_nil, if_pos, hcanon, hex, if_true, reduceIte]
  · rw [make_relative_eq_some]
    refine ⟨?_, startsWith_self _⟩
    rw [stripRoot, if_neg (by simp), RPath.join, if_neg (by simp),
      canonicalizeFS]
    simp only [reduceIte]
    rw [normalizeComps, normalizeGo_append_dot, ← normalizeComps, hcanon,
      if_pos hex]

/-- Witness for C8: root `/srv` in a filesystem where `/` and `/srv`
exist. -/
theorem resolve_empty_and_dot_witness :
    make_relative (canonicalizeFS [[], ["srv"]])
        { absolute := true, components := ["srv"] }
        { absolute := false, components := [] }
      = some { absolute := true, components := ["srv"] } ∧
      make_relative (canonicalizeFS [[], ["srv"]])
        { absolute := true, components := ["srv"] }
        { absolute := false, components := ["."] }
      = some { absolute := true, components := ["srv"] } :=
  resolve_empty_and_dot [[], ["srv"]]
    { absolute := true, components := ["srv"] }
    (by decide) (by decide) (by decide)

/-- C4 counterexample: the snapshot has `/` and `/srv` but no
`/srv/newdir`; the root `/srv` itself canonicalizes fine (the target's
parent chain is confined), yet `make_relative` rejects the
not-yet-existing creation target `newdir`: it canonicalizes the full
joined path, and canonicalization fails on a nonexistent target. -/
theorem creation_target_rejected :
    canonicalizeFS [[], ["srv"]] { absolute := true, components := ["srv"] }
        = some { absolute := true, components := ["srv"] } ∧
      make_relative (canonicalizeFS [[], ["srv"]])
        { absolute := true, components := ["srv"] }
        { absolute := false, components := ["newdir"] } = none := by
  decide

/-- C4 amended: for every target that does not exist (its resolved path is
not in the snapshot) — parent chain confined or not — `make_relative`
fails, so every creation operation on a not-yet-existing target (here
`CreateDir`) is rejected by the `Root` layer with `NotFound`. -/
theorem nonexistent_target_rejected (fs : FS) (root sub : RPath)
    (hnotexist :
      normalizeComps (root.join (stripRoot sub)).components ∉ fs) :
    make_relative (canonicalizeFS fs) root sub = none ∧
      Root.call (FileSystem.call (osOf fs)) (canonicalizeFS fs) root
        (.CreateDir sub true) = .error .notFound := by
  have hcanon : canonicalizeFS fs (root.join (stripRoot sub)) = none := by
    rw [canonicalizeFS]
    by_cases habs : (root.join (stripRoot sub)).absolute
    · rw [if_pos habs]
      simp only [if_neg hnotexist]
    · rw [if_neg habs]
  have hmr : make_relative (canonicalizeFS fs) root sub = none := by
    rw [make_relative, hcanon]
    rfl
  refine ⟨hmr, ?_⟩
  rw [Root.call, Request.adjust_paths, hmr]
  rfl

/-- Witness for the amended C4: root `/srv` exists, `newdir` does not, and
the `CreateDir` request is answered `NotFound`. -/
theorem nonexistent_target_rejected_witness :
    make_relative (canonicalizeFS [[], ["srv"]])
        { absolute := true, components := ["srv"] }
        { absolute := false, components := ["newdir"] } = none ∧
      Root.call (FileSystem.call (osOf [[], ["srv"]]))
        (canonicalizeFS [[], ["srv"]])
        { absolute := true, components := ["srv"] }
        (.CreateDir { absolute := false, components := ["newdir"] } true)
        = .error .notFound :=
  nonexistent_target_rejected [[], ["srv"]]
    { absolute := true, components := ["srv"] }
    { absolute := false, components := ["newdir"] } (by decide)

/-- Lexical resolution leaves no empty, `.` or `..` components in its
output (given a clean accumulator). -/
theorem normalizeGo_clean :
    ∀ (l acc : List String),
      (∀ c ∈ acc, c ≠ "" ∧ c ≠ "." ∧ c ≠ "..") →
      ∀ c ∈ normalizeGo acc l, c ≠ "" ∧ c ≠ "." ∧ c ≠ ".." := by
  intro l
  induction l with
  | nil => intro acc hacc; exact hacc
  | cons c cs ih =>
    intro acc hacc
    rw [normalizeGo]
    by_cases h1 : c = "" ∨ c = "."
    · rw [if_pos h1]
      exact ih acc hacc
    · rw [if_neg h1]
      by_cases h2 : c = ".."
      · rw [if_pos h2]
        exact ih acc.dropLast
          (fun d hd => hacc d ((List.dropLast_sublist acc).subset hd))
      · rw [if_neg h2]
        refine ih (acc ++ [c]) ?_
        intro d hd
        rcases List.mem_append.mp hd with h | h
        · exact hacc d h
        · rcases List.mem_singleton.mp h with rfl
          push_neg at h1
          exact ⟨h1.1, h1.2, h2⟩

/-- Lexical resolution is the identity on clean component lists. -/
theorem normalizeGo_of_clean :
    ∀ (l acc : List String), (∀ c ∈ l, c ≠ "" ∧ c ≠ "." ∧ c ≠ "..") →
      normalizeGo acc l = acc ++ l := by
  intro l
  induction l with
  | nil => intro acc _; simp [normalizeGo]
  | cons c cs ih =>
    intro acc hl
    obtain ⟨h0, h1, h2⟩ := hl c (List.mem_cons_self c cs)
    rw [normalizeGo, if_neg (by tauto), if_neg h2,
      ih (acc ++ [c]) (fun d hd => hl d (List.mem_cons_of_mem c hd))]
    simp

/-- Lexical resolution is idempotent. -/
theorem normalizeComps_idem (l : List String) :
    normalizeComps (normalizeComps l) = normalizeComps l := by
  rw [normalizeComps, normalizeComps,
    normalizeGo_of_clean _ _ (normalizeGo_clean l [] (by simp)),
    List.nil_append]

/-- A path returned by the modelled canonicalization exists in the
snapshot. -/
theorem canonicalizeFS_pathExists {fs : FS} {p q : RPath}
    (h : canonicalizeFS fs p = some q) : fs.pathExists q = true := by
  rw [canonicalizeFS] at h
  by_cases habs : p.absolute
  · rw [if_pos habs] at h
    by_cases hmem : normalizeComps p.components ∈ fs
    · rw [if_pos hmem] at h
      cases h
      rw [FS.pathExists]
      simp [normalizeComps_idem, hmem]
    · rw [if_neg hmem] at h
      cases h
  · rw [if_neg habs] at h
    cases h

/-- C10: through the `Root` layer over the dispatcher, an `Exists` request
never produces `Ok(Exists(false))`: either confinement fails — in
particular because canonicalization fails on a nonexistent target — and
the result is the `NotFound` error, or the confined path exists in the
snapshot and the existence query answers `true`. -/
theorem exists_through_root_never_false (fs : FS) (root p : RPath) :
    Root.call (FileSystem.call (osOf fs)) (canonicalizeFS fs) root
        (.Exists p) = .error .notFound ∨
      Root.call (FileSystem.call (osOf fs)) (canonicalizeFS fs) root
        (.Exists p) = .ok (.Exists true) := by
  rw [Root.call, Request.adjust_paths]
  cases hm : make_relative (canonicalizeFS fs) root p with
  | none => exact Or.inl rfl
  | some q =>
    rw [Option.bind]
    refine Or.inr ?_
    have hq : canonicalizeFS fs (root.join (stripRoot p)) = some q :=
      ((make_relative_eq_some _ root p q).mp hm).1
    simp [FileSystem.call, osOf, Except.map, canonicalizeFS_pathExists hq]

/-- C9: `Mode::CreateOrOverwrite` yields open options with `write` and
`truncate` set but no creation flag, so opening a nonexistent path with it
fails with `NotFound` instead of creating the file; among all modes, only
`CreateOrAppend` and `CreateNew` set a creation flag. -/
theorem create_or_overwrite_no_create (fs : FS) (p : RPath)
    (h : fs.pathExists p = false) :
    Mode.CreateOrOverwrite.into_open_options.create = false ∧
      Mode.CreateOrOverwrite.into_open_options.createNew = false ∧
      Mode.CreateOrOverwrite.into_open_options.write = true ∧
      Mode.CreateOrOverwrite.into_open_options.truncate = true ∧
      FileSystem.call (osOf fs) (.Open .CreateOrOverwrite p)
        = .error .notFound ∧
      ∀ m : Mode,
        (m.into_open_options.create || m.into_open_options.createNew) = true
          ↔ (m = .CreateOrAppend ∨ m = .CreateNew) := by
  refine ⟨rfl, rfl, rfl, rfl, ?_, by intro m; cases m <;> decide⟩
  have hopen :
      (Mode.CreateOrOverwrite.into_open_options).openFile fs p
        = .error .notFound := by
    rw [OpenOptions.openFile]
    simp [Mode.into_open_options, OpenOptions.new, h]
  simp [FileSystem.call, osOf, hopen, Except.map]

/-- Witness for C9: the empty snapshot, path `/x`. -/
theorem create_or_overwrite_no_create_witness :
    FS.pathExists [] { absolute := true, components := ["x"] } = false ∧
      FileSystem.call (osOf [])
        (.Open .CreateOrOverwrite { absolute := true, components := ["x"] })
        = .error .notFound :=
  ⟨by decide,
    (create_or_overwrite_no_create []
      { absolute := true, components := ["x"] } (by decide)).2.2.2.2.1⟩

/-- C1 (divergence witness for the off-by-one): a 100-byte source, range
`10..=19`, capacity 16 — the `bytes=10-19` scenario.  The chunk sequence
delivers 9 bytes in total, while an inclusive range `10..=19` denotes
`19 − 10 + 1 = 10` bytes: `with_range` wraps the reader in
`take(range.end() - range.start())`, one byte short. -/
theorem with_range_off_by_one :
    sumLens (with_range_chunks (List.replicate 100 7) 16 10 19) = 9 := by
  decide

/-! ## Range parser (`src/http.rs`, `try_parse_range`)

`try_parse_range` is `parse_range_header(header_value).and_then(|p|
p.validate(file_size))`, both halves supplied by the external
`http_range_header` crate whose source is not part of this repository; the
two halves are modelled below from the spec (§4.2, §6): the forms
`bytes=a-b`, `bytes=a-` and `bytes=-k` parse into candidate ranges, and
validation makes the whole header unsatisfiable when any candidate has
start > end after resolving open-ended forms, start ≥ content length, or
end ≥ content length; parse failure and unsatisfiability share one error
type (`RangeUnsatisfiableError`), modelled as `none`. -/

/-- A candidate range parsed from the header text, before validation. -/
inductive RangeSpec where
  | fromTo (a b : Nat)
  | fromStart (a : Nat)
  | suffix (k : Nat)
  deriving DecidableEq, Repr

/-- Accumulate decimal digits; any non-digit fails the parse. -/
def parseNatGo (acc : Nat) : List Char → Option Nat
  | [] => some acc
  | c :: cs =>
    if '0' ≤ c ∧ c ≤ '9' then parseNatGo (acc * 10 + (c.toNat - 48)) cs
    else none

/-- Parse a nonempty decimal numeral. -/
def parseNatChars (l : List Char) : Option Nat :=
  if l = [] then none else parseNatGo 0 l

def splitCharGo (sep : Char) (cur : List Char) : List Char → List (List Char)
  | [] => [cur.reverse]
  | c :: cs =>
    if c = sep then cur.reverse :: splitCharGo sep [] cs
    else splitCharGo sep (c :: cur) cs

/-- Split a character list on a separator. -/
def splitOnChar (sep : Char) (l : List Char) : List (List Char) :=
  splitCharGo sep [] l

/-- Modelled from the spec: one range token of the external
`http_range_header` parser — `a-b`, `a-` or `-k`, with exactly one `-`. -/
def parseRangeToken (t : List Char) : Option RangeSpec :=
  match splitOnChar '-' t with
  | [as, bs] =>
    if as = [] then (parseNatChars bs).map RangeSpec.suffix
    else
      match parseNatChars as with
      | none => none
      | some a =>
        if bs = [] then some (.fromStart a)
        else (parseNatChars bs).map (RangeSpec.fromTo a)
  | _ => none

/-- Modelled from the spec: `http_range_header::parse_range_header` —
a `bytes=` prefix followed by a nonempty comma-separated list of range
tokens (spaces after commas tolerated); anything else is malformed. -/
def parse_range_header (s : String) : Option (List RangeSpec) :=
  match s.data with
  | 'b' :: 'y' :: 't' :: 'e' :: 's' :: '=' :: rest =>
    if rest = [] then none
    else
      (splitOnChar ',' rest).mapM fun t =>
        parseRangeToken (t.dropWhile (fun c => c = ' '))
  | _ => none

/-- Modelled from the spec: validation of one candidate against the
content length — the inclusive end must stay below the content length and
the start must not exceed the end; open-ended forms resolve to the final
byte; a suffix covers at most the whole content and must be nonempty. -/
def validateRange (file_size : Nat) : RangeSpec → Option (Nat × Nat)
  | .fromTo a b => if a ≤ b ∧ b < file_size then some (a, b) else none
  | .fromStart a => if a < file_size then some (a, file_size - 1) else none
  | .suffix k =>
    if 0 < k ∧ 0 < file_size then
      some (file_size - min k file_size, file_size - 1)
    else none

/-- `try_parse_range` from `src/http.rs`: parse, then validate every
candidate; any invalid candidate makes the whole header unsatisfiable. -/
def try_parse_range (header_value : String) (file_size : Nat) :
    Option (List (Nat × Nat)) :=
  (parse_range_header header_value).bind fun specs =>
    specs.mapM (validateRange file_size)

/-- C5: for a header that reads `bytes=a-b` (it parses to the single
candidate `(a, b)`) and any content length `L`: if `a ≤ b < L` the result
is the single inclusive range `(a, b)`; if `b ≥ L` the header is
unsatisfiable. -/
theorem try_parse_range_spec (s : String) (a b L : Nat)
    (hparse : parse_range_header s = some [RangeSpec.fromTo a b]) :
    (a ≤ b → b < L → try_parse_range s L = some [(a, b)]) ∧
      (L ≤ b → try_parse_range s L = none) := by
  constructor
  · intro h1 h2
    rw [try_parse_range, hparse]
    simp [List.mapM, List.mapM.loop, validateRange, h1, h2]
  · intro h
    rw [try_parse_range, hparse]
    simp only [Option.bind_eq_bind, Option.some_bind, List.mapM,
      List.mapM.loop]
    rw [validateRange, if_neg (by omega)]
    rfl

/-- Witness for C5: `bytes=10-19` at length 100 yields `(10, 19)` (the
spec's streaming scenario), and `bytes=95-150` at length 100 is
unsatisfiable (the spec's unsatisfiable scenario). -/
theorem try_parse_range_spec_witness :
    try_parse_range "bytes=10-19" 100 = some [(10, 19)] ∧
      try_parse_range "bytes=95-150" 100 = none :=
  ⟨(try_parse_range_spec "bytes=10-19" 10 19 100 (by decide)).1
      (by decide) (by decide),
    (try_parse_range_spec "bytes=95-150" 95 150 100 (by decide)).2
      (by decide)⟩

/-! ## Request-path validation (`src/http.rs`, `build_and_validate_path`)

The request string arrives as UTF-8 bytes (`List Nat`; 37 = `%`, 46 = `.`,
47 = `/`).  The source trims leading `/`, percent-decodes (the
`percent_encoding` crate leaves an invalid escape as a literal `%` and
continues at the next byte), checks the decoded bytes are valid UTF-8, and
walks the decoded path's components, keeping `Normal` ones (whose own
sub-components must all be `Normal`), skipping `CurDir`, and rejecting
`Prefix`/`RootDir`/`ParentDir`. -/

/-- `s.trim_start_matches('/')`. -/
def trimLeadingSlashes : List Nat → List Nat
  | 47 :: rest => trimLeadingSlashes rest
  | l => l

def isHexDigit (b : Nat) : Bool :=
  (48 ≤ b && b ≤ 57) || (65 ≤ b && b ≤ 70) || (97 ≤ b && b ≤ 102)

def hexVal (b : Nat) : Nat :=
  if b ≤ 57 then b - 48 else if b ≤ 70 then b - 55 else b - 87

/-- `percent_encoding::percent_decode`, fuelled structurally on the input
length (each step consumes at least one byte, so fuel = length suffices;
exhausted fuel passes the tail through verbatim). -/
def percentDecodeGo : Nat → List Nat → List Nat
  | 0, l => l
  | _ + 1, [] => []
  | fuel + 1, 37 :: rest =>
    match rest with
    | h :: lo :: rest2 =>
      if isHexDigit h && isHexDigit lo then
        (16 * hexVal h + hexVal lo) :: percentDecodeGo fuel rest2
      else 37 :: percentDecodeGo fuel rest
    | _ => 37 :: percentDecodeGo fuel rest
  | fuel + 1, b :: rest => b :: percentDecodeGo fuel rest

/-- Percent-decode a byte string. -/
def percentDecode (l : List Nat) : List Nat :=
  percentDecodeGo l.length l

def isCont (b : Nat) : Bool := 128 ≤ b && b ≤ 191

/-- UTF-8 validity (RFC 3629 table: overlongs and surrogates rejected),
fuelled structurally on the input length. -/
def validUtf8Go : Nat → List Nat → Bool
  | 0, l => l.isEmpty
  | _ + 1, [] => true
  | fuel + 1, b :: rest =>
    if b ≤ 127 then validUtf8Go fuel rest
    else if 194 ≤ b ∧ b ≤ 223 then
      match rest with
      | c1 :: r => isCont c1 && validUtf8Go fuel r
      | [] => false
    else if b = 224 then
      match rest with
      | c1 :: c2 :: r =>
        (160 ≤ c1 && c1 ≤ 191) && isCont c2 && validUtf8Go fuel r
      | _ => false
    else if (225 ≤ b ∧ b ≤ 236) ∨ b = 238 ∨ b = 239 then
      match rest with
      | c1 :: c2 :: r => isCont c1 && isCont c2 && validUtf8Go fuel r
      | _ => false
    else if b = 237 then
      match rest with
      | c1 :: c2 :: r =>
        (128 ≤ c1 && c1 ≤ 159) && isCont c2 && validUtf8Go fuel r
      | _ => false
    else if b = 240 then
      match rest with
      | c1 :: c2 :: c3 :: r =>
        (144 ≤ c1 && c1 ≤ 191) && isCont c2 && isCont c3 && validUtf8Go fuel r
      | _ => false
    else if 241 ≤ b ∧ b ≤ 243 then
      match rest with
      | c1 :: c2 :: c3 :: r =>
        isCont c1 && isCont c2 && isCont c3 && validUtf8Go fuel r
      | _ => false
    else if b = 244 then
      match rest with
      | c1 :: c2 :: c3 :: r =>
        (128 ≤ c1 && c1 ≤ 143) && isCont c2 && isCont c3 && validUtf8Go fuel r
      | _ => false
    else false

/-- Is a byte string valid UTF-8 (`decode_utf8` succeeds)? -/
def validUtf8 (l : List Nat) : Bool :=
  validUtf8Go l.length l

def splitSlashGo (cur : List Nat) : List Nat → List (List Nat)
  | [] => [cur.reverse]
  | b :: bs =>
    if b = 47 then cur.reverse :: splitSlashGo [] bs
    else splitSlashGo (b :: cur) bs

/-- Split a byte string at `/` (47). `/` never occurs inside a multi-byte
UTF-8 sequence, so this is splitting the decoded string at `/`. -/
def splitSlash (l : List Nat) : List (List Nat) :=
  splitSlashGo [] l

/-- The component kinds of `std::path::Component` on Unix (no `Prefix`). -/
inductive UComp where
  | rootDir
  | curDir
  | parentDir
  | normal (name : List Nat)
  deriving DecidableEq, Repr

/-- Classify one non-empty slash-separated piece. -/
def classifyComp (c : List Nat) : UComp :=
  if c = [46] then .curDir else if c = [46, 46] then .parentDir
  else .normal c

/-- `Path::components()` on Unix: a leading `/` is `RootDir`; empty pieces
vanish; `.` pieces vanish except as the first component of a relative
path; `..` is `ParentDir`. -/
def pathComponents (bytes : List Nat) : List UComp :=
  let parts := (splitSlash bytes).filter (fun c => c ≠ [])
  if bytes.head? = some 47 then
    .rootDir :: (parts.filter (fun c => c ≠ [46])).map classifyComp
  else
    match parts with
    | [] => []
    | c :: cs => classifyComp c :: (cs.filter (fun c => c ≠ [46])).map classifyComp

/-- `PathError` from `src/http.rs`. -/
inductive PathError where
  | SubComponentNotNormal
  | ComponentNotAllowed
  | Utf8
  deriving DecidableEq, Repr

def isNormalComp : UComp → Bool
  | .normal _ => true
  | _ => false

/-- The component loop of `build_and_validate_path`: push `Normal`
components whose sub-components are all `Normal`, skip `CurDir`, reject
the rest (`Prefix` cannot arise on Unix). -/
def pushNormalComps (acc : List (List Nat)) :
    List UComp → Except PathError (List (List Nat))
  | [] => .ok acc
  | .normal comp :: rest =>
    if (pathComponents comp).all isNormalComp then
      pushNormalComps (acc ++ [comp]) rest
    else .error .SubComponentNotNormal
  | .curDir :: rest => pushNormalComps acc rest
  | .rootDir :: _ => .error .ComponentNotAllowed
  | .parentDir :: _ => .error .ComponentNotAllowed

/-- `build_and_validate_path` from `src/http.rs`: trim leading `/`,
percent-decode, require valid UTF-8, then walk the components. -/
def build_and_validate_path (requested_path : List Nat) :
    Except PathError (List (List Nat)) :=
  if validUtf8 (percentDecode (trimLeadingSlashes requested_path)) then
    pushNormalComps []
      (pathComponents (percentDecode (trimLeadingSlashes requested_path)))
  else .error .Utf8

/-- Spec-side: does the component list contain a root marker or a
parent-directory component (a drive prefix cannot arise on Unix)? -/
def hasDisallowed (cs : List UComp) : Bool :=
  cs.any fun c =>
    match c with
    | .rootDir => true
    | .parentDir => true
    | _ => false

/-- Spec-side: the plain-name components, in order. -/
def plainNames (cs : List UComp) : List (List Nat) :=
  cs.filterMap fun c =>
    match c with
    | .normal n => some n
    | _ => none

theorem splitSlashGo_no47 :
    ∀ (l cur : List Nat), 47 ∉ l → splitSlashGo cur l = [cur.reverse ++ l] := by
  intro l
  induction l with
  | nil =>
    intro cur _
    simp [splitSlashGo]
  | cons b bs ih =>
    intro cur h
    have hb : b ≠ 47 := fun hb => h (hb ▸ List.mem_cons_self _ _)
    rw [splitSlashGo, if_neg hb, ih _ (fun hm => h (List.mem_cons_of_mem _ hm))]
    simp

theorem splitSlashGo_mem_no47 :
    ∀ (l cur c : List Nat), 47 ∉ cur → c ∈ splitSlashGo cur l → 47 ∉ c := by
  intro l
  induction l with
  | nil =>
    intro cur c hcur hc
    rw [splitSlashGo] at hc
    rcases List.mem_singleton.mp hc with rfl
    simpa using hcur
  | cons b bs ih =>
    intro cur c hcur hc
    rw [splitSlashGo] at hc
    by_cases hb : b = 47
    · rw [if_pos hb] at hc
      rcases List.mem_cons.mp hc with rfl | hc
      · simpa using hcur
      · exact ih [] c (by simp) hc
    · rw [if_neg hb] at hc
      refine ih (b :: cur) c ?_ hc
      intro hm
      rcases List.mem_cons.mp hm with h47 | h47
      · exact hb h47.symm
      · exact hcur h47

/-- Pieces produced by splitting at `/` contain no `/`. -/
theorem splitSlash_mem_no47 {l c : List Nat} (h : c ∈ splitSlash l) :
    47 ∉ c :=
  splitSlashGo_mem_no47 l [] c (by simp) h

theorem classifyComp_eq_normal {x n : List Nat}
    (h : classifyComp x = .normal n) :
    x = n ∧ n ≠ [46] ∧ n ≠ [46, 46] := by
  rw [classifyComp] at h
  by_cases h1 : x = [46]
  · rw [if_pos h1] at h
    cases h
  · rw [if_neg h1] at h
    by_cases h2 : x = [46, 46]
    · rw [if_pos h2] at h
      cases h
    · rw [if_neg h2] at h
      cases h
      exact ⟨rfl, h1, h2⟩

theorem mem_parts_props {bytes x : List Nat}
    (hx : x ∈ (splitSlash bytes).filter (fun c => c ≠ [])) :
    x ≠ [] ∧ 47 ∉ x := by
  rcases List.mem_filter.mp hx with ⟨hmem, hne⟩
  exact ⟨by simpa using hne, splitSlash_mem_no47 hmem⟩

/-- A `Normal` component of a path is nonempty, slash-free, and not a dot
component. -/
theorem pathComponents_normal_props {bytes n : List Nat}
    (h : UComp.normal n ∈ pathComponents bytes) :
    n ≠ [] ∧ 47 ∉ n ∧ n ≠ [46] ∧ n ≠ [46, 46] := by
  simp only [pathComponents] at h
  by_cases hh : bytes.head? = some 47
  · rw [if_pos hh] at h
    rcases List.mem_cons.mp h with hbad | h
    · exact absurd hbad (by simp)
    · rcases List.mem_map.mp h with ⟨x, hx, hcx⟩
      rcases List.mem_filter.mp hx with ⟨hx1, _⟩
      obtain ⟨hne, h47⟩ := mem_parts_props hx1
      obtain ⟨rfl, hd1, hd2⟩ := classifyComp_eq_normal hcx
      exact ⟨hne, h47, hd1, hd2⟩
  · rw [if_neg hh] at h
    cases hp : (splitSlash bytes).filter (fun c => c ≠ []) with
    | nil =>
      rw [hp] at h
      cases h
    | cons c cs =>
      rw [hp] at h
      rcases List.mem_cons.mp h with hc | h
      · have hcparts : c ∈ (splitSlash bytes).filter (fun c => c ≠ []) :=
          hp ▸ List.mem_cons_self c cs
        obtain ⟨hne, h47⟩ := mem_parts_props hcparts
        obtain ⟨rfl, hd1, hd2⟩ := classifyComp_eq_normal hc.symm
        exact ⟨hne, h47, hd1, hd2⟩
      · rcases List.mem_map.mp h with ⟨x, hx, hcx⟩
        rcases List.mem_filter.mp hx with ⟨hx1, _⟩
        have hxparts : x ∈ (splitSlash bytes).filter (fun c => c ≠ []) :=
          hp ▸ List.mem_cons_of_mem c hx1
        obtain ⟨hne, h47⟩ := mem_parts_props hxparts
        obtain ⟨rfl, hd1, hd2⟩ := classifyComp_eq_normal hcx
        exact ⟨hne, h47, hd1, hd2⟩

/-- A nonempty, slash-free, non-dot byte string is a single `Normal`
component. -/
theorem pathComponents_single (n : List Nat) (hne : n ≠ []) (h47 : 47 ∉ n)
    (h1 : n ≠ [46]) (h2 : n ≠ [46, 46]) :
    pathComponents n = [UComp.normal n] := by
  have hhead : ¬ n.head? = some 47 := by
    cases n with
    | nil => simp
    | cons m ms =>
      simp only [List.head?_cons, Option.some.injEq]
      intro hm
      exact h47 (hm ▸ List.mem_cons_self _ _)
  have hsplit : splitSlash n = [n] := by
    rw [splitSlash, splitSlashGo_no47 _ _ h47]
    simp
  simp only [pathComponents, hsplit]
  rw [if_neg hhead]
  simp only [List.filter_cons, List.filter_nil]
  rw [if_pos (by simpa using hne)]
  simp only [List.filter_nil, List.map_nil]
  rw [classifyComp, if_neg h1, if_neg h2]

/-- The sub-component check of the source loop always passes on Unix:
every `Normal` component is itself a single `Normal` component. -/
theorem pathComponents_all_good (bytes : List Nat) :
    ∀ n, UComp.normal n ∈ pathComponents bytes →
      (pathComponents n).all isNormalComp = true := by
  intro n h
  obtain ⟨hne, h47, h1, h2⟩ := pathComponents_normal_props h
  rw [pathComponents_single n hne h47 h1 h2]
  rfl

theorem pushNormalComps_spec :
    ∀ (cs : List UComp) (acc : List (List Nat)),
      (∀ n, UComp.normal n ∈ cs →
        (pathComponents n).all isNormalComp = true) →
      pushNormalComps acc cs =
        if hasDisallowed cs then .error .ComponentNotAllowed
        else .ok (acc ++ plainNames cs) := by
  intro cs
  induction cs with
  | nil =>
    intro acc _
    simp [pushNormalComps, hasDisallowed, plainNames]
  | cons c rest ih =>
    intro acc hgood
    cases c with
    | rootDir => simp [pushNormalComps, hasDisallowed]
    | parentDir => simp [pushNormalComps, hasDisallowed]
    | curDir =>
      rw [pushNormalComps,
        ih acc (fun n hn => hgood n (List.mem_cons_of_mem _ hn))]
      simp [hasDisallowed, plainNames]
    | normal nm =>
      rw [pushNormalComps, if_pos (hgood nm (List.mem_cons_self _ _)),
        ih (acc ++ [nm]) (fun n hn => hgood n (List.mem_cons_of_mem _ hn))]
      have hcons :
          hasDisallowed (UComp.normal nm :: rest) = hasDisallowed rest := by
        simp [hasDisallowed]
      have hplain :
          plainNames (UComp.normal nm :: rest) = nm :: plainNames rest := by
        simp [plainNames]
      rw [hcons, hplain]
      by_cases hd : hasDisallowed rest = true
      · rw [if_pos hd, if_pos hd]
      · rw [if_neg hd, if_neg hd, List.append_assoc]
        rfl

/-- C7: `build_and_validate_path` — a pure function, so no filesystem
access — returns the `Utf8` error when percent-decoding yields invalid
UTF-8; returns the `ComponentNotAllowed` error when the decoded path has a
root marker or parent-directory component (on Unix a drive prefix cannot
arise, and the sub-component check never fails); and otherwise returns the
path assembled from the plain-name components in order (with `.`
components skipped). -/
theorem build_and_validate_path_spec (req : List Nat) :
    (validUtf8 (percentDecode (trimLeadingSlashes req)) = false →
      build_and_validate_path req = .error .Utf8) ∧
    (validUtf8 (percentDecode (trimLeadingSlashes req)) = true →
      hasDisallowed (pathComponents (percentDecode (trimLeadingSlashes req)))
          = true →
      build_and_validate_path req = .error .ComponentNotAllowed) ∧
    (validUtf8 (percentDecode (trimLeadingSlashes req)) = true →
      hasDisallowed (pathComponents (percentDecode (trimLeadingSlashes req)))
          = false →
      build_and_validate_path req =
        .ok (plainNames
          (pathComponents (percentDecode (trimLeadingSlashes req))))) := by
  refine ⟨?_, ?_, ?_⟩ <;> intro h1
  · rw [build_and_validate_path, if_neg (by simp [h1])]
  · intro h2
    rw [build_and_validate_path, if_pos h1,
      pushNormalComps_spec _ _ (pathComponents_all_good _), if_pos h2]
  · intro h2
    rw [build_and_validate_path, if_pos h1,
      pushNormalComps_spec _ _ (pathComponents_all_good _),
      if_neg (by simp [h2]), List.nil_append]

/-- Witness for C7: the request `a%2E/b` decodes to `a./b` and yields the
components `a.`, `b`. -/
theorem build_and_validate_path_spec_witness :
    build_and_validate_path [97, 37, 50, 69, 47, 98]
      = .ok [[97, 46], [98]] :=
  (build_and_validate_path_spec [97, 37, 50, 69, 47, 98]).2.2
    (by decide) (by decide)

end TowerFs
